import Mathlib

/-!
Verification of the VOS document-review frontend (`frontend/lib/api.ts` and
`frontend/app/documents/[id]/page.tsx`) against its natural-language
specification.  The data model and the pure logic of the page and the API
client are embedded as executable Lean definitions; backend behaviour that is
not part of the sources (range validation in the AI completion client, the
orchestrator's event stream, the meta-synthesis engine and its cache) is
modelled from the specification, and every such definition says so in its doc
comment.
-/

namespace VOS

/-- Record `Comment` from `frontend/lib/api.ts`. -/
structure Comment where
  id : String
  content : String
  persona_id : String
  persona_name : String
  persona_color : String
  start_line : Int
  end_line : Int
  created_at : String
deriving DecidableEq, Repr

/-- Record `MetaCommentSource` from `frontend/lib/api.ts`. -/
structure MetaCommentSource where
  persona_id : String
  persona_name : String
  persona_color : String
  original_content : String
deriving DecidableEq, Repr

/-- Record `MetaComment` from `frontend/lib/api.ts`. -/
structure MetaComment where
  id : String
  content : String
  start_line : Int
  end_line : Int
  sources : List MetaCommentSource
  category : String
  priority : String
  created_at : String
deriving DecidableEq, Repr

/-- Record `Document` from `frontend/lib/api.ts`. -/
structure Document where
  id : String
  title : String
  description : Option String
  content : String
  is_archived : Bool
  created_at : String
  updated_at : String
  review_count : Nat
deriving DecidableEq, Repr

/-- Record `Persona` from `frontend/lib/api.ts`. -/
structure Persona where
  id : String
  name : String
  description : Option String
  system_prompt : String
  tone : String
  focus_areas : List String
  color : String
deriving DecidableEq, Repr

/-- Record `ReviewSummary` from `frontend/lib/api.ts`. -/
structure ReviewSummary where
  id : String
  document_id : String
  persona_ids : List String
  status : String
  created_at : String
  completed_at : Option String
  comment_count : Nat
deriving DecidableEq, Repr

/-- Record `PersonaStatus` from `frontend/lib/api.ts`.  The TypeScript type
annotates `status` with the literal union `queued | running | completed`, but
the value stored at runtime is the raw `status` string of the incoming event
(the `as` cast in `doReview` is erased), so the field is embedded as a
string. -/
structure PersonaStatus where
  persona_id : String
  persona_name : String
  persona_color : String
  status : String
deriving DecidableEq, Repr

/-- An HTTP response as seen by the API-client functions: the `ok` flag and
the decoded JSON body (JSON decoding is abstracted). -/
structure HttpResponse (α : Type) where
  ok : Bool
  body : α
deriving DecidableEq, Repr

/-- Function `fetchLatestComments` from `frontend/lib/api.ts`: on a non-ok response it
returns the empty list instead of throwing. -/
def fetchLatestComments (res : HttpResponse (List Comment)) :
    Except String (List Comment) :=
  if !res.ok then .ok [] else .ok res.body

/-- Function `fetchMetaComments` from `frontend/lib/api.ts`: on a non-ok response it
returns the empty list instead of throwing. -/
def fetchMetaComments (res : HttpResponse (List MetaComment)) :
    Except String (List MetaComment) :=
  if !res.ok then .ok [] else .ok res.body

/-- Function `fetchDocument` from `frontend/lib/api.ts`: throws on a non-ok response. -/
def fetchDocument (res : HttpResponse Document) : Except String Document :=
  if !res.ok then .error "Failed to fetch document" else .ok res.body

/-- Function `fetchPersonas` from `frontend/lib/api.ts`: throws on a non-ok response. -/
def fetchPersonas (res : HttpResponse (List Persona)) :
    Except String (List Persona) :=
  if !res.ok then .error "Failed to fetch personas" else .ok res.body

/-- Function `synthesizeMetaReview` from `frontend/lib/api.ts` (the POST endpoint):
throws on a non-ok response. -/
def synthesizeMetaReview (res : HttpResponse (List MetaComment)) :
    Except String (List MetaComment) :=
  if !res.ok then .error "Failed to synthesize meta review" else .ok res.body

/-- Function `togglePersona` from `frontend/app/documents/[id]/page.tsx`:
`prev.includes(id) ? prev.filter((p) => p !== id) : [...prev, id]`. -/
def togglePersona (id : String) (prev : List String) : List String :=
  if prev.contains id then prev.filter (fun p => p ≠ id) else prev ++ [id]

/-- The persona filter applied to the comment list in
`frontend/app/documents/[id]/page.tsx`:
`comments.filter(c => !filterPersona || c.persona_id === filterPersona)`. -/
def filterByPersona (filterPersona : Option String) (comments : List Comment) :
    List Comment :=
  comments.filter fun c =>
    match filterPersona with
    | none => true
    | some fp => c.persona_id == fp

/-- Function `sortedComments` from `frontend/app/documents/[id]/page.tsx`:
`[...comments].filter(...).sort((a, b) => a.start_line - b.start_line)`.
The JavaScript comparison sort is embedded as a (stable) merge sort on the
same ordering. -/
def sortedComments (filterPersona : Option String) (comments : List Comment) :
    List Comment :=
  (filterByPersona filterPersona comments).mergeSort
    (fun a b => a.start_line ≤ b.start_line)

/-- The two values of the `ViewMode` type in
`frontend/app/documents/[id]/page.tsx`. -/
inductive ViewMode where
  | meta
  | individual
deriving DecidableEq, Repr

/-- One event of the review stream, as decoded by `startReviewStream` in
`frontend/lib/api.ts` and dispatched on `event.type` by `doReview`. -/
inductive StreamEvent where
  | personaStatusEvent (persona_id persona_name persona_color status : String)
  | commentEvent (comment : Comment)
  | doneEvent (review_id : Option String) (total_comments : Nat)
  | errorEvent (error detail : String)
deriving DecidableEq, Repr

/-- The React state of `DocumentDetailPage` in
`frontend/app/documents/[id]/page.tsx` that the embedded handlers read and
write.  `documentLoaded` stands for `document !== null`;
`personaStatuses` is the `Map` keyed by persona id, kept as an association
list in insertion order. -/
structure PageState where
  comments : List Comment
  metaComments : List MetaComment
  personaStatuses : List (String × PersonaStatus)
  isReviewing : Bool
  isSynthesizing : Bool
  error : Option String
  viewMode : ViewMode
  currentReviewId : Option String
  documentLoaded : Bool
  filterPersona : Option String
deriving DecidableEq, Repr

/-- The `onError` callback passed to `startReviewStream` by `doReview`
(`frontend/app/documents/[id]/page.tsx`): it sets the page `error` state and
clears `isReviewing`; it does not touch the comment list. -/
def handleStreamError (s : PageState) (msg : String) : PageState :=
  { s with error := some msg, isReviewing := false }

/-- The comments actually rendered for the user by `DocumentDetailPage`: when
`error` is set the component returns early with a full-page error view (no
document, no comment list); when the document has not loaded it shows a
skeleton; otherwise the individual-comments panel shows `sortedComments`
(the meta panel shows meta-comments instead of individual comments). -/
def visibleComments (s : PageState) : List Comment :=
  match s.error with
  | some _ => []
  | none =>
    if !s.documentLoaded then []
    else
      match s.viewMode with
      | .individual => sortedComments s.filterPersona s.comments
      | .meta => []

/-- Function `triggerMetaSynthesis` from `frontend/app/documents/[id]/page.tsx`,
given the outcome of the `synthesizeMetaReview` call: on success it stores
the meta-comments and switches to the meta view; on failure the `catch`
block does nothing ("Synthesis failed, stay on individual view"); the
`finally` block clears `isSynthesizing` in both cases. -/
def triggerMetaSynthesis (s : PageState)
    (result : Except String (List MetaComment)) : PageState :=
  match result with
  | .ok mcs =>
      { s with metaComments := mcs, viewMode := .meta, isSynthesizing := false }
  | .error _ => { s with isSynthesizing := false }

/-- The comment accumulation performed by the `onEvent` callback in
`doReview`: every `comment` event appends its comment to the `comments`
state (`setComments(prev => [...prev, event.comment])`). -/
def receivedComments (events : List StreamEvent) : List Comment :=
  events.foldl
    (fun acc e =>
      match e with
      | .commentEvent c => acc ++ [c]
      | _ => acc)
    []

/-- Modelled from the spec: the backend AI Completion Client's line-range
validation is not among the sources (only the frontend is).  Per the spec,
"the line numbers returned must be validated and clamped to
`[0, len(document_lines)-1]`; a comment whose reported range is out of
bounds or inverted (`end_line < start_line`) is dropped rather than
surfaced".  A comment is kept exactly when its range lies inside the
document and is not inverted. -/
def commentRangeValid (numLines : Nat) (c : Comment) : Bool :=
  0 ≤ c.start_line && c.start_line ≤ c.end_line &&
    c.end_line < (numLines : Int)

/-- Modelled from the spec: the validated comment list the backend surfaces
for a document with `numLines` lines — out-of-bounds or inverted comments
are dropped. -/
def validComments (numLines : Nat) (raw : List Comment) : List Comment :=
  raw.filter (commentRangeValid numLines)

/-- Modelled from the spec: the orchestrator emits one `comment` stream
event per surfaced (validated) comment. -/
def emittedCommentEvents (numLines : Nat) (raw : List Comment) :
    List StreamEvent :=
  (validComments numLines raw).map StreamEvent.commentEvent

/-- One entry of the per-line highlight lists built by `lineHighlights` in
`frontend/app/documents/[id]/page.tsx`. -/
structure Highlight where
  commentId : String
  color : String
deriving DecidableEq, Repr

/-- The individual-comments branch of `lineHighlights` in
`frontend/app/documents/[id]/page.tsx`, read back per line: the `Map` is
filled by iterating the persona-filtered comments and pushing, for each
comment, one `{commentId, color}` entry onto the list of every line in
`[start_line, end_line]`; so the entry list of a given line consists of the
filtered comments covering that line, in list order. -/
def highlightsAt (filterPersona : Option String) (comments : List Comment)
    (line : Int) : List Highlight :=
  ((filterByPersona filterPersona comments).filter
      (fun c => c.start_line ≤ line && line ≤ c.end_line)).map
    (fun c => ⟨c.id, c.persona_color⟩)

/-- A JavaScript `Error` as observed by the `catch` in `startReviewStream`:
its `name` and `message`. -/
structure JsError where
  name : String
  message : String
deriving DecidableEq, Repr

/-- One SSE line as handled in `startReviewStream` (`frontend/lib/api.ts`):
a line starting with `"data: "` has its first six characters stripped
(`line.slice(6)`) and is JSON-parsed (parsing abstracted as `parse`; a
malformed line yields `none` and is skipped); any other line is ignored. -/
def sseLineEvent (parse : String → Option StreamEvent) (line : String) :
    Option StreamEvent :=
  if line.startsWith "data: " then parse (line.drop 6) else none

/-- One iteration of the read loop in `startReviewStream`: the chunk is
appended to the carried buffer, the result is split on newlines, the last
(possibly incomplete) piece becomes the new buffer (`buffer = lines.pop()`),
and each complete `data:` line fires `onEvent` in order. -/
def sseStep (parse : String → Option StreamEvent)
    (st : String × List StreamEvent) (chunk : String) :
    String × List StreamEvent :=
  let parts := (st.1 ++ chunk).splitOn "\n"
  (parts.getLast?.getD "",
    st.2 ++ parts.dropLast.filterMap (sseLineEvent parse))

/-- The buffer and the events delivered by the read loop of
`startReviewStream` after consuming the given chunks in order, starting
from an empty buffer. -/
def consumeChunks (parse : String → Option StreamEvent)
    (chunks : List String) : String × List StreamEvent :=
  chunks.foldl (sseStep parse) ("", [])

/-- The `catch` clause of `startReviewStream`: `onError` is invoked only
when the thrown error's `name` is not `"AbortError"`. -/
def reportStreamFailure (e : JsError) : Option String :=
  if e.name ≠ "AbortError" then some e.message else none

/-- A whole run of `startReviewStream`'s consumer: given the chunks that
were read before the stream ended (normally, or by a thrown error such as
the abort of the fetch) and the error thrown, if any, it returns the events
delivered to `onEvent` and the error surfaced through `onError`, if any. -/
def streamRun (parse : String → Option StreamEvent)
    (chunks : List String) (thrown : Option JsError) :
    List StreamEvent × Option String :=
  ((consumeChunks parse chunks).2, thrown.bind reportStreamFailure)

/-- JavaScript `Map.prototype.set` on the persona-status map built by
`doReview`: when the key is present its value is replaced in place, keeping
insertion order; otherwise the pair is appended.  Keys are unique in every
map reachable from the empty map through this operation. -/
def mapSet : List (String × PersonaStatus) → String → PersonaStatus →
    List (String × PersonaStatus)
  | [], k, v => [(k, v)]
  | p :: t, k, v => if p.1 == k then (k, v) :: t else p :: mapSet t k v

/-- JavaScript `Map.prototype.get`: the value of the first (unique) entry
with the given key. -/
def mapGet (m : List (String × PersonaStatus)) (k : String) :
    Option PersonaStatus :=
  (m.find? (fun p => p.1 == k)).map (fun p => p.2)

/-- The `persona_status` branch of the `onEvent` callback in `doReview`
(`frontend/app/documents/[id]/page.tsx`): a `persona_status` event
overwrites the map entry of its persona with the event's fields (the `as`
cast on `event.status` is erased at runtime, so the raw status string is
stored); every other event leaves the map unchanged. -/
def applyStreamEvent (m : List (String × PersonaStatus)) (e : StreamEvent) :
    List (String × PersonaStatus) :=
  match e with
  | .personaStatusEvent pid pname pcolor st =>
      mapSet m pid ⟨pid, pname, pcolor, st⟩
  | _ => m

/-- The persona-status map after `doReview` has consumed a list of events,
starting from the fresh `new Map()`. -/
def statusMapAfter (events : List StreamEvent) :
    List (String × PersonaStatus) :=
  events.foldl applyStreamEvent []

/-- The `PersonaStatus` carried by an event when it is a `persona_status`
event for the given persona. -/
def personaStatusOf (pid : String) (e : StreamEvent) : Option PersonaStatus :=
  match e with
  | .personaStatusEvent pid' pname pcolor st =>
      if pid' == pid then some ⟨pid', pname, pcolor, st⟩ else none
  | _ => none

/-- The most recent `persona_status` event for a given persona in a list of
received events. -/
def lastStatusEvent (events : List StreamEvent) (pid : String) :
    Option PersonaStatus :=
  (events.filterMap (personaStatusOf pid)).getLast?

/-- A persona identity as carried on stream events. -/
structure PersonaInfo where
  id : String
  name : String
  color : String
deriving DecidableEq, Repr

/-- Modelled from the spec: the backend Review Orchestrator's event stream
is not among the sources.  Per the spec it emits a `queued` status for every
persona up front, then, per persona, a `running` status followed by that
persona's comment events and a `completed` status — or a `failed` status and
zero comments when its call errors — and finally one terminal `done` event.
The list `personas` is taken in completion order, which abstracts the
concurrent interleaving. -/
def orchestrate (personas : List PersonaInfo)
    (result : String → Option (List Comment)) (reviewId : String) :
    List StreamEvent :=
  (personas.map fun p =>
    StreamEvent.personaStatusEvent p.id p.name p.color "queued")
  ++ (personas.flatMap fun p =>
    StreamEvent.personaStatusEvent p.id p.name p.color "running" ::
      (match result p.id with
       | some cs => cs.map StreamEvent.commentEvent ++
           [StreamEvent.personaStatusEvent p.id p.name p.color "completed"]
       | none =>
           [StreamEvent.personaStatusEvent p.id p.name p.color "failed"]))
  ++ [StreamEvent.doneEvent (some reviewId)
        ((personas.filterMap fun p => result p.id).flatten.length)]

/-- The `source` record a synthesized meta-comment keeps for one original
comment: persona id, name, color and the original text (spec, data model of
`MetaComment.sources`). -/
def toSource (c : Comment) : MetaCommentSource :=
  ⟨c.persona_id, c.persona_name, c.persona_color, c.content⟩

/-- Modelled from the spec: one insertion step of the Meta-Synthesis
Engine's clustering (the backend is not among the sources).  A comment joins
the first candidate cluster containing a comment it relates to — the
relation `near` stands for "line ranges intersect or are within a small
proximity window, combined with model-judged semantic similarity" — and
otherwise starts a new singleton cluster. -/
def addToClusters (near : Comment → Comment → Bool) (c : Comment) :
    List (List Comment) → List (List Comment)
  | [] => [[c]]
  | cl :: rest =>
      if cl.any (fun m => near m c) then (cl ++ [c]) :: rest
      else cl :: addToClusters near c rest

/-- Modelled from the spec: the clustering pass of the Meta-Synthesis
Engine — every input comment is inserted into exactly one cluster. -/
def clusterComments (near : Comment → Comment → Bool) (l : List Comment) :
    List (List Comment) :=
  l.foldl (fun acc c => addToClusters near c acc) []

/-- The minimum `start_line` of a cluster (the union of the sources'
ranges, per the spec); defined as a fold over the cluster. -/
def clusterStart (cl : List Comment) : Int :=
  match cl with
  | [] => 0
  | c :: t => t.foldl (fun acc m => min acc m.start_line) c.start_line

/-- The maximum `end_line` of a cluster. -/
def clusterEnd (cl : List Comment) : Int :=
  match cl with
  | [] => 0
  | c :: t => t.foldl (fun acc m => max acc m.end_line) c.end_line

/-- Modelled from the spec: the Meta-Synthesis Engine reduces each cluster
to one MetaComment whose range is the min/max union of its sources' ranges
and whose `sources` cite every clustered comment; the AI-chosen wording,
category, priority and identifiers are abstracted as functions of the
cluster. -/
def synthesize (near : Comment → Comment → Bool)
    (describe chooseCategory choosePriority chooseId : List Comment → String)
    (ts : String) (l : List Comment) : List MetaComment :=
  (clusterComments near l).map fun cl =>
    { id := chooseId cl, content := describe cl,
      start_line := clusterStart cl, end_line := clusterEnd cl,
      sources := cl.map toSource,
      category := chooseCategory cl, priority := choosePriority cl,
      created_at := ts }

/-- Modelled from the spec: the backend's per-review synthesis store
("synthesis result for a given `(document_id, review_id)` is computed at
most once unless explicitly re-requested").  `computeCount` counts how many
times the synthesis has actually been computed. -/
structure ServerState where
  reviewComments : List Comment
  metaCache : Option (List MetaComment)
  computeCount : Nat
deriving DecidableEq, Repr

/-- Modelled from the spec: the GET meta endpoint
(`GET .../reviews/{rid}/meta`, the read path used by `fetchMetaComments`)
returns the previously stored MetaComment set without recomputation, and a
non-ok response when none is stored. -/
def handleGetMeta (s : ServerState) :
    ServerState × HttpResponse (List MetaComment) :=
  match s.metaCache with
  | some mcs => (s, ⟨true, mcs⟩)
  | none => (s, ⟨false, []⟩)

/-- Modelled from the spec: the POST meta endpoint
(`POST .../reviews/{rid}/meta`, called by `synthesizeMetaReview`) is the
explicit synthesis request: it recomputes the synthesis from the review's
comments and stores the result. -/
def handlePostMeta (synthFn : List Comment → List MetaComment)
    (s : ServerState) : ServerState × HttpResponse (List MetaComment) :=
  let r := synthFn s.reviewComments
  ({ s with metaCache := some r, computeCount := s.computeCount + 1 },
    ⟨true, r⟩)

/-- The load path of `DocumentDetailPage` for an already-reviewed document
(`frontend/app/documents/[id]/page.tsx`): it looks for a completed review
(`reviews.find(r => r.status === 'completed')`) and, when one exists, reads
the cached synthesis through `fetchMetaComments` — the GET endpoint — never
through the POST endpoint. -/
def loadCachedMeta (reviews : List ReviewSummary) (s : ServerState) :
    ServerState × List MetaComment :=
  match reviews.find? (fun r => r.status == "completed") with
  | some _ =>
      let res := handleGetMeta s
      (res.1,
        match fetchMetaComments res.2 with
        | .ok mcs => mcs
        | .error _ => [])
  | none => (s, [])

end VOS

namespace VOS

/-- A sample comment used by concrete counterexamples and witnesses. -/
def sampleComment : Comment :=
  { id := "c1", content := "tighten this paragraph", persona_id := "p1",
    persona_name := "Devils Advocate", persona_color := "#ef4444",
    start_line := 2, end_line := 3, created_at := "t0" }

/-- A page state in the middle of a streaming review: document loaded, one
comment already received, individual view, no error. -/
def streamingState : PageState :=
  { comments := [sampleComment], metaComments := [], personaStatuses := [],
    isReviewing := true, isSynthesizing := false, error := none,
    viewMode := .individual, currentReviewId := none,
    documentLoaded := true, filterPersona := none }

/-- A comment whose reported range (`start_line = end_line = 15`) is out of
bounds for an 8-line document — the spec's dropped-comment scenario. -/
def badComment : Comment :=
  { id := "bad", content := "out of range remark", persona_id := "p2",
    persona_name := "Security Reviewer", persona_color := "#f97316",
    start_line := 15, end_line := 15, created_at := "t1" }

/-- A sample stored meta-comment for the caching witness. -/
def sampleMeta : MetaComment :=
  { id := "m1", content := "merged feedback", start_line := 2, end_line := 3,
    sources := [toSource sampleComment], category := "clarity",
    priority := "medium", created_at := "t2" }

/-- A sample completed review summary for the caching witness. -/
def sampleReview : ReviewSummary :=
  { id := "r1", document_id := "d1", persona_ids := ["p1"],
    status := "completed", created_at := "t0", completed_at := some "t1",
    comment_count := 1 }

/-- A sample backend state holding one cached synthesis result. -/
def sampleServer : ServerState :=
  { reviewComments := [sampleComment], metaCache := some [sampleMeta],
    computeCount := 1 }

/-- Folding the `onEvent` comment handler over a stream of pure comment
events yields exactly the carried comments, in order. -/
theorem receivedComments_commentEvents (l : List Comment) :
    receivedComments (l.map StreamEvent.commentEvent) = l := by
  have key : ∀ (l : List Comment) (acc : List Comment),
      (l.map StreamEvent.commentEvent).foldl
        (fun acc e =>
          match e with
          | .commentEvent c => acc ++ [c]
          | _ => acc)
        acc = acc ++ l := by
    intro l
    induction l with
    | nil => intro acc; simp
    | cons c t ih =>
        intro acc
        simp only [List.map_cons, List.foldl_cons, ih]
        simp
  simpa using key l []

/-- C9: on a non-ok response, `fetchLatestComments` and `fetchMetaComments`
return the empty list and do not throw, while `fetchDocument`,
`fetchPersonas` and `synthesizeMetaReview` throw an `Error`. -/
theorem fetch_error_policy (cs : List Comment) (mcs mcs' : List MetaComment)
    (d : Document) (ps : List Persona) :
    fetchLatestComments ⟨false, cs⟩ = .ok [] ∧
    fetchMetaComments ⟨false, mcs⟩ = .ok [] ∧
    fetchDocument ⟨false, d⟩ = .error "Failed to fetch document" ∧
    fetchPersonas ⟨false, ps⟩ = .error "Failed to fetch personas" ∧
    synthesizeMetaReview ⟨false, mcs'⟩ =
      .error "Failed to synthesize meta review" := by
  refine ⟨rfl, rfl, rfl, rfl, rfl⟩

/-- C10: on a duplicate-free selection, one application of `togglePersona p`
appends `p` exactly when it is absent and removes every occurrence of `p`
when present, and applying it twice is the identity on the selected set. -/
theorem togglePersona_involutive (l : List String) (p : String)
    (h : l.Nodup) :
    (p ∉ l → togglePersona p l = l ++ [p]) ∧
    (p ∈ l → p ∉ togglePersona p l) ∧
    (∀ x, x ∈ togglePersona p (togglePersona p l) ↔ x ∈ l) := by
  by_cases hp : p ∈ l
  · refine ⟨fun hc => absurd hp hc, fun _ => ?_, fun x => ?_⟩
    · simp [togglePersona, hp, List.mem_filter]
    · have h1 : togglePersona p l = l.filter (fun q => q ≠ p) := by
        simp [togglePersona, hp]
      have h2 : p ∉ l.filter (fun q => q ≠ p) := by
        simp [List.mem_filter]
      rw [h1]
      have h3 : togglePersona p (l.filter (fun q => q ≠ p)) =
          l.filter (fun q => q ≠ p) ++ [p] := by
        simp [togglePersona, h2]
      rw [h3]
      simp only [List.mem_append, List.mem_filter, List.mem_singleton,
        decide_eq_true_eq]
      constructor
      · rintro (⟨hx, _⟩ | hx)
        · exact hx
        · exact hx ▸ hp
      · intro hx
        by_cases hxp : x = p
        · exact Or.inr hxp
        · exact Or.inl ⟨hx, hxp⟩
  · have h1 : togglePersona p l = l ++ [p] := by
      simp [togglePersona, hp]
    refine ⟨fun _ => h1, fun hc => absurd hc hp, fun x => ?_⟩
    have h2 : p ∈ l ++ [p] := by simp
    have h3 : togglePersona p (l ++ [p]) = (l ++ [p]).filter (fun q => q ≠ p) := by
      simp [togglePersona, h2]
    have h4 : (l ++ [p]).filter (fun q => q ≠ p) = l := by
      rw [List.filter_append]
      have h5 : l.filter (fun q => q ≠ p) = l := by
        apply List.filter_eq_self.mpr
        intro a ha
        simp only [decide_eq_true_eq]
        exact fun hap => hp (hap ▸ ha)
      have h6 : List.filter (fun q => decide (q ≠ p)) [p] = [] := by simp
      rw [h6, List.append_nil, h5]
    rw [h1, h3, h4]

/-- Witness for C10 at a concrete selection. -/
theorem togglePersona_involutive_witness :
    ["a", "b"].Nodup ∧
    (("c" ∉ ["a", "b"]) → togglePersona "c" ["a", "b"] = ["a", "b"] ++ ["c"]) ∧
    (("c" ∈ ["a", "b"]) → "c" ∉ togglePersona "c" ["a", "b"]) ∧
    (∀ x, x ∈ togglePersona "c" (togglePersona "c" ["a", "b"]) ↔
      x ∈ ["a", "b"]) := by
  have hnd : (["a", "b"] : List String).Nodup := by decide
  exact ⟨hnd, togglePersona_involutive ["a", "b"] "c" hnd⟩

/-- C4: for every comment list and active persona filter, the displayed list
`sortedComments` is in non-decreasing order of `start_line`. -/
theorem sortedComments_sorted (filterPersona : Option String)
    (comments : List Comment) :
    (sortedComments filterPersona comments).Pairwise
      (fun a b => a.start_line ≤ b.start_line) := by
  have h := @List.sorted_mergeSort Comment
    (fun a b => decide (a.start_line ≤ b.start_line))
    (fun a b c hab hbc => by
      simp only [decide_eq_true_eq] at *
      exact le_trans hab hbc)
    (fun a b => by
      simp only [Bool.or_eq_true, decide_eq_true_eq]
      exact le_total a.start_line b.start_line)
    (filterByPersona filterPersona comments)
  exact h.imp (by simp)

/-- C1: a comment whose reported range is out of bounds of the document or
inverted is dropped by the validation step and never surfaced: it is not in
the comment list accumulated from the stream, and no per-line highlight
entry carries its id. -/
theorem invalid_comment_never_surfaced (numLines : Nat) (raw : List Comment)
    (c : Comment) (fp : Option String)
    (hinv : commentRangeValid numLines c = false)
    (hid : ∀ c' ∈ raw, c'.id = c.id → c' = c) :
    c ∉ receivedComments (emittedCommentEvents numLines raw) ∧
    ∀ line h,
      h ∈ highlightsAt fp (receivedComments (emittedCommentEvents numLines raw))
        line →
      h.commentId ≠ c.id := by
  rw [emittedCommentEvents, receivedComments_commentEvents]
  constructor
  · intro hmem
    have := (List.mem_filter.mp hmem).2
    rw [hinv] at this
    exact Bool.false_ne_true this
  · intro line h hmem heq
    simp only [highlightsAt, List.mem_map] at hmem
    obtain ⟨c', hc', hch⟩ := hmem
    have hc'v : c' ∈ validComments numLines raw :=
      (List.mem_filter.mp ((List.mem_filter.mp hc').1)).1
    have hc'raw : c' ∈ raw := (List.mem_filter.mp hc'v).1
    have hc'valid : commentRangeValid numLines c' = true :=
      (List.mem_filter.mp hc'v).2
    have hcid : c'.id = c.id := by rw [← hch] at heq; exact heq
    have : c' = c := hid c' hc'raw hcid
    rw [this, hinv] at hc'valid
    exact Bool.false_ne_true hc'valid

/-- Witness for C1: the spec's scenario — a comment at line 15 against an
8-line document is dropped and produces no highlight. -/
theorem invalid_comment_never_surfaced_witness :
    commentRangeValid 8 badComment = false ∧
    (∀ c' ∈ [sampleComment, badComment], c'.id = badComment.id →
      c' = badComment) ∧
    (badComment ∉
      receivedComments (emittedCommentEvents 8 [sampleComment, badComment]) ∧
    ∀ line h,
      h ∈ highlightsAt none
        (receivedComments (emittedCommentEvents 8 [sampleComment, badComment]))
        line →
      h.commentId ≠ badComment.id) :=
  ⟨by decide, by decide,
    invalid_comment_never_surfaced 8 [sampleComment, badComment] badComment
      none (by decide) (by decide)⟩

/-- The read loop only ever appends to the delivered event list: consuming
further chunks from any intermediate state extends the events already
delivered. -/
theorem sse_foldl_extends (parse : String → Option StreamEvent) :
    ∀ (l : List String) (st : String × List StreamEvent),
      ∃ extra, (List.foldl (sseStep parse) st l).2 = st.2 ++ extra := by
  intro l
  induction l with
  | nil => intro st; exact ⟨[], by simp⟩
  | cons c t ih =>
      intro st
      obtain ⟨extra, hx⟩ := ih (sseStep parse st c)
      refine ⟨((st.1 ++ c).splitOn "\n").dropLast.filterMap
        (sseLineEvent parse) ++ extra, ?_⟩
      rw [List.foldl_cons, hx]
      simp only [sseStep]
      rw [List.append_assoc]

/-- C5: aborting the in-flight stream after `k` chunks stops event
consumption — the delivered events are a prefix of the full run's events,
no event beyond them fires — and the resulting `AbortError` is swallowed by
the `catch`, so `onError` reports nothing. -/
theorem abort_stops_consumption_and_is_silent
    (parse : String → Option StreamEvent) (chunks : List String) (k : Nat)
    (msg : String) :
    (streamRun parse (chunks.take k) (some ⟨"AbortError", msg⟩)).2 = none ∧
    ∃ rest,
      (streamRun parse chunks none).1 =
        (streamRun parse (chunks.take k) (some ⟨"AbortError", msg⟩)).1 ++
          rest := by
  constructor
  · simp [streamRun, reportStreamFailure]
  · simp only [streamRun, consumeChunks]
    obtain ⟨extra, hx⟩ := sse_foldl_extends parse (chunks.drop k)
      (List.foldl (sseStep parse) ("", []) (chunks.take k))
    refine ⟨extra, ?_⟩
    rw [← List.take_append_drop k chunks, List.foldl_append] at *
    simpa using hx

/-- Head step of `mapGet` on a non-empty association list. -/
theorem mapGet_cons (p : String × PersonaStatus)
    (t : List (String × PersonaStatus)) (k' : String) :
    mapGet (p :: t) k' = if p.1 == k' then some p.2 else mapGet t k' := by
  by_cases h : (p.1 == k') = true
  · simp [mapGet, List.find?, h]
  · have h' : (p.1 == k') = false := by simpa using h
    simp [mapGet, List.find?, h']

/-- Looking up a key after a `mapSet`: the written key reads back the new
value, every other key is unaffected. -/
theorem mapGet_mapSet (m : List (String × PersonaStatus)) (k k' : String)
    (v : PersonaStatus) :
    mapGet (mapSet m k v) k' = if k' = k then some v else mapGet m k' := by
  induction m with
  | nil =>
      rw [show mapSet [] k v = [(k, v)] from rfl, mapGet_cons]
      by_cases h : k' = k
      · subst h; simp
      · have hk : (k == k') = false := by
          simpa using fun hc : k = k' => h hc.symm
        simp [hk, h, mapGet]
  | cons p t ih =>
      by_cases hp : (p.1 == k) = true
      · rw [show mapSet (p :: t) k v = (k, v) :: t by simp [mapSet, hp],
          mapGet_cons, mapGet_cons]
        have hpk : p.1 = k := by simpa using hp
        by_cases h : k' = k
        · subst h; simp
        · have hk : (k == k') = false := by
            simpa using fun hc : k = k' => h hc.symm
          have hp' : (p.1 == k') = false := by rw [hpk]; exact hk
          simp [hk, hp', h]
      · have hpf : (p.1 == k) = false := by simpa using hp
        rw [show mapSet (p :: t) k v = p :: mapSet t k v by
            simp [mapSet, hpf],
          mapGet_cons, mapGet_cons, ih]
        by_cases hq : (p.1 == k') = true
        · have hqk : p.1 = k' := by simpa using hq
          have h : ¬k' = k := fun hc => by
            rw [hqk, hc] at hpf
            simp at hpf
          simp [hq, h]
        · have hqf : (p.1 == k') = false := by simpa using hq
          simp [hqf]

/-- The status map kept by `doReview` records, for every persona, the status
of the most recent `persona_status` event received for it. -/
theorem statusMap_last (events : List StreamEvent) (pid : String) :
    mapGet (statusMapAfter events) pid = lastStatusEvent events pid := by
  induction events using List.reverseRecOn with
  | nil => simp [statusMapAfter, lastStatusEvent, mapGet]
  | append_singleton l e ih =>
      have h1 : statusMapAfter (l ++ [e]) =
          applyStreamEvent (statusMapAfter l) e := by
        simp [statusMapAfter, List.foldl_append]
      have h2 : lastStatusEvent (l ++ [e]) pid =
          (l.filterMap (personaStatusOf pid) ++
            [e].filterMap (personaStatusOf pid)).getLast? := by
        simp [lastStatusEvent, List.filterMap_append]
      cases e with
      | personaStatusEvent pid' pn pc st =>
          rw [h1, h2]
          simp only [applyStreamEvent]
          rw [mapGet_mapSet]
          by_cases hpid : pid' = pid
          · subst hpid
            have hf : [StreamEvent.personaStatusEvent pid' pn pc st].filterMap
                (personaStatusOf pid') =
                [⟨pid', pn, pc, st⟩] := by
              simp [personaStatusOf]
            rw [hf, List.getLast?_concat]
            simp
          · have hf : [StreamEvent.personaStatusEvent pid' pn pc st].filterMap
                (personaStatusOf pid) = [] := by
              simp [personaStatusOf, hpid]
            have hne : ¬pid = pid' := fun hc => hpid hc.symm
            rw [hf, List.append_nil, if_neg hne]
            exact ih
      | commentEvent c =>
          rw [h1, h2]
          simp [applyStreamEvent, personaStatusOf, ih, lastStatusEvent]
      | doneEvent rid tc =>
          rw [h1, h2]
          simp [applyStreamEvent, personaStatusOf, ih, lastStatusEvent]
      | errorEvent er det =>
          rw [h1, h2]
          simp [applyStreamEvent, personaStatusOf, ih, lastStatusEvent]

/-- C6: every `persona_status` event of the orchestrated stream carries a
status among `queued`, `running`, `completed`, `failed`; and for every
sequence of received events, the consumer's per-persona map holds the
status of the most recent `persona_status` event of each persona. -/
theorem persona_status_values_and_latest (personas : List PersonaInfo)
    (result : String → Option (List Comment)) (reviewId : String) :
    (∀ pid pn pc st,
      StreamEvent.personaStatusEvent pid pn pc st ∈
        orchestrate personas result reviewId →
      st = "queued" ∨ st = "running" ∨ st = "completed" ∨ st = "failed") ∧
    ∀ (events : List StreamEvent) (pid : String),
      mapGet (statusMapAfter events) pid = lastStatusEvent events pid := by
  refine ⟨?_, fun events pid => statusMap_last events pid⟩
  intro pid pn pc st hmem
  simp only [orchestrate, List.mem_append, List.mem_map, List.mem_flatMap,
    List.mem_singleton, List.mem_cons] at hmem
  rcases hmem with (⟨p, _, heq⟩ | ⟨p, _, hin⟩) | hdone
  · cases heq
    exact Or.inl rfl
  · rcases hin with heq | hrest
    · cases heq
      exact Or.inr (Or.inl rfl)
    · cases hres : result p.id with
      | some cs =>
          rw [hres] at hrest
          rcases List.mem_append.mp hrest with hcm | hlast

          · rcases List.mem_map.mp hcm with ⟨c, _, hc⟩
            cases hc
          · rcases List.mem_singleton.mp hlast with heq
            cases heq
            exact Or.inr (Or.inr (Or.inl rfl))
      | none =>
          rw [hres] at hrest
          rcases List.mem_singleton.mp hrest with heq
          cases heq
          exact Or.inr (Or.inr (Or.inr rfl))
  · simp at hdone

/-- Witness for C6: a single persona whose call fails — the stream carries
its `failed` status and the consumer's map ends with status `failed`. -/
theorem persona_status_values_and_latest_witness :
    (StreamEvent.personaStatusEvent "p1" "A" "#f00" "failed" ∈
      orchestrate [⟨"p1", "A", "#f00"⟩] (fun _ => none) "r1") ∧
    ("failed" = "queued" ∨ "failed" = "running" ∨ "failed" = "completed" ∨
      "failed" = "failed") ∧
    mapGet (statusMapAfter (orchestrate [⟨"p1", "A", "#f00"⟩]
        (fun _ => none) "r1")) "p1" =
      lastStatusEvent (orchestrate [⟨"p1", "A", "#f00"⟩]
        (fun _ => none) "r1") "p1" ∧
    mapGet (statusMapAfter (orchestrate [⟨"p1", "A", "#f00"⟩]
        (fun _ => none) "r1")) "p1" =
      some ⟨"p1", "A", "#f00", "failed"⟩ := by
  refine ⟨by decide, ?_, ?_, by decide⟩
  · exact (persona_status_values_and_latest [⟨"p1", "A", "#f00"⟩]
      (fun _ => none) "r1").1 "p1" "A" "#f00" "failed" (by decide)
  · exact (persona_status_values_and_latest [⟨"p1", "A", "#f00"⟩]
      (fun _ => none) "r1").2
      (orchestrate [⟨"p1", "A", "#f00"⟩] (fun _ => none) "r1") "p1"

/-- Inserting a comment into the clusters adds exactly that comment to the
clustered multiset. -/
theorem flatten_addToClusters (near : Comment → Comment → Bool) (c : Comment) :
    ∀ cls : List (List Comment),
      (addToClusters near c cls).flatten.Perm (c :: cls.flatten) := by
  intro cls
  induction cls with
  | nil => simp [addToClusters]
  | cons cl rest ih =>
      by_cases h : cl.any (fun m => near m c) = true
      · simp only [addToClusters, h, if_true, List.flatten_cons]
        have : cl ++ [c] ++ rest.flatten = cl ++ c :: rest.flatten := by
          rw [List.append_assoc]; rfl
        rw [this]
        exact List.perm_middle
      · have hf : cl.any (fun m => near m c) = false := by simpa using h
        simp only [addToClusters, hf, Bool.false_eq_true, if_false,
          List.flatten_cons]
        exact (List.Perm.append_left cl ih).trans List.perm_middle

/-- Clustering partitions the input comments: the clusters flatten back to a
permutation of the input list. -/
theorem flatten_clusterComments (near : Comment → Comment → Bool)
    (l : List Comment) : (clusterComments near l).flatten.Perm l := by
  have key : ∀ (l : List Comment) (acc : List (List Comment)),
      (l.foldl (fun acc c => addToClusters near c acc) acc).flatten.Perm
        (acc.flatten ++ l) := by
    intro l
    induction l with
    | nil => intro acc; simp
    | cons c t ih =>
        intro acc
        have h1 := ih (addToClusters near c acc)
        have h2 : ((addToClusters near c acc).flatten ++ t).Perm
            ((c :: acc.flatten) ++ t) :=
          (flatten_addToClusters near c acc).append_right t
        exact (h1.trans h2).trans List.perm_middle.symm
  simpa [clusterComments] using key l []

/-- Every cluster produced by the clustering pass is non-empty. -/
theorem clusterComments_ne_nil (near : Comment → Comment → Bool)
    (l : List Comment) :
    ∀ cl ∈ clusterComments near l, cl ≠ [] := by
  have step : ∀ (c : Comment) (cls : List (List Comment)),
      (∀ cl ∈ cls, cl ≠ []) →
      ∀ cl ∈ addToClusters near c cls, cl ≠ [] := by
    intro c cls
    induction cls with
    | nil => intro _ cl hcl; simp [addToClusters] at hcl; simp [hcl]
    | cons cl0 rest ih =>
        intro hinv cl hcl
        by_cases h : cl0.any (fun m => near m c) = true
        · simp only [addToClusters, h, if_true, List.mem_cons] at hcl
          rcases hcl with hcl | hcl
          · simp [hcl]
          · exact hinv cl (List.mem_cons_of_mem cl0 hcl)
        · have hf : cl0.any (fun m => near m c) = false := by simpa using h
          simp only [addToClusters, hf, Bool.false_eq_true, if_false,
            List.mem_cons] at hcl
          rcases hcl with hcl | hcl
          · exact hcl ▸ hinv cl0 (List.mem_cons_self cl0 rest)
          · exact ih (fun x hx => hinv x (List.mem_cons_of_mem cl0 hx)) cl hcl
  have key : ∀ (l : List Comment) (acc : List (List Comment)),
      (∀ cl ∈ acc, cl ≠ []) →
      ∀ cl ∈ l.foldl (fun acc c => addToClusters near c acc) acc, cl ≠ [] := by
    intro l
    induction l with
    | nil => intro acc hacc; simpa using hacc
    | cons c t ih =>
        intro acc hacc
        exact ih (addToClusters near c acc) (step c acc hacc)
  exact key l [] (by simp)

/-- C3: synthesis is source-preserving — the sources of the produced
meta-comments are, as a multiset, exactly the input comments (none dropped,
none duplicated), their count adds up to the input count, and every
meta-comment cites at least one source. -/
theorem synthesis_source_preserving (near : Comment → Comment → Bool)
    (describe chooseCategory choosePriority chooseId : List Comment → String)
    (ts : String) (l : List Comment) :
    ((synthesize near describe chooseCategory choosePriority chooseId ts
        l).map (fun mc => mc.sources)).flatten.Perm (l.map toSource) ∧
    ((synthesize near describe chooseCategory choosePriority chooseId ts
        l).map (fun mc => mc.sources.length)).sum = l.length ∧
    ∀ mc ∈ synthesize near describe chooseCategory choosePriority chooseId ts
        l, mc.sources ≠ [] := by
  have hmap : (synthesize near describe chooseCategory choosePriority chooseId
      ts l).map (fun mc => mc.sources) =
      (clusterComments near l).map (fun cl => cl.map toSource) := by
    simp [synthesize]
  have hperm : ((synthesize near describe chooseCategory choosePriority
      chooseId ts l).map (fun mc => mc.sources)).flatten.Perm
      (l.map toSource) := by
    rw [hmap, ← List.map_flatten]
    exact (flatten_clusterComments near l).map toSource
  refine ⟨hperm, ?_, ?_⟩
  · have h1 := hperm.length_eq
    rw [List.length_flatten, List.length_map] at h1
    rw [← h1, List.map_map]
    rfl
  · intro mc hmc
    simp only [synthesize, List.mem_map] at hmc
    obtain ⟨cl, hcl, hmk⟩ := hmc
    have hne := clusterComments_ne_nil near l cl hcl
    rw [← hmk]
    simpa using hne

/-- C7: loading the page for an already-synthesized review reads the stored
MetaComment set through the GET endpoint — the server state, in particular
the number of times synthesis has been computed, is unchanged — while only
the explicit POST request recomputes. -/
theorem cached_synthesis_read_path (s : ServerState)
    (mcs : List MetaComment) (reviews : List ReviewSummary)
    (hcache : s.metaCache = some mcs)
    (hrev : (reviews.find? (fun r => r.status == "completed")).isSome) :
    (loadCachedMeta reviews s).1 = s ∧
    (loadCachedMeta reviews s).2 = mcs ∧
    (loadCachedMeta reviews s).1.computeCount = s.computeCount ∧
    ∀ synthFn,
      ((handlePostMeta synthFn s).1).computeCount = s.computeCount + 1 := by
  obtain ⟨r, hr⟩ := Option.isSome_iff_exists.mp hrev
  have hget : handleGetMeta s = (s, ⟨true, mcs⟩) := by
    simp [handleGetMeta, hcache]
  have hload : loadCachedMeta reviews s = (s, mcs) := by
    simp [loadCachedMeta, hr, hget, fetchMetaComments]
  refine ⟨by rw [hload], by rw [hload], by rw [hload], ?_⟩
  intro synthFn
  simp [handlePostMeta]

/-- Witness for C7 at a concrete cached server state and review list. -/
theorem cached_synthesis_read_path_witness :
    sampleServer.metaCache = some [sampleMeta] ∧
    (([sampleReview].find? (fun r => r.status == "completed")).isSome) ∧
    ((loadCachedMeta [sampleReview] sampleServer).1 = sampleServer ∧
    (loadCachedMeta [sampleReview] sampleServer).2 = [sampleMeta] ∧
    (loadCachedMeta [sampleReview] sampleServer).1.computeCount =
      sampleServer.computeCount ∧
    ∀ synthFn,
      ((handlePostMeta synthFn sampleServer).1).computeCount =
        sampleServer.computeCount + 1) :=
  ⟨rfl, by decide,
    cached_synthesis_read_path sampleServer [sampleMeta] [sampleReview] rfl
      (by decide)⟩

/-- C2 counterexample: in a streaming state that is displaying one received
comment, a stream error makes the rendered comment list empty — the error
view replaces the page, so the received comments are no longer visible,
refuting the claim that the error does not hide them. -/
theorem stream_error_hides_comments_counterexample :
    visibleComments streamingState = [sampleComment] ∧
    (handleStreamError streamingState "stream failed").comments =
      [sampleComment] ∧
    visibleComments (handleStreamError streamingState "stream failed") = [] := by
  refine ⟨?_, rfl, rfl⟩
  simp [visibleComments, streamingState, sortedComments, filterByPersona,
    List.mergeSort_singleton]

/-- C2 (amended): after a stream error the comments received so far remain in
the client's `comments` state (the error handler does not clear them), but
the page replaces the whole view with a full-page error screen while the
error is set, so no comment is rendered. -/
theorem stream_error_keeps_state_but_shows_error_view (s : PageState)
    (msg : String) :
    (handleStreamError s msg).comments = s.comments ∧
    (handleStreamError s msg).error = some msg ∧
    visibleComments (handleStreamError s msg) = [] := by
  exact ⟨rfl, rfl, rfl⟩

/-- C8: when the meta-synthesis request fails, `triggerMetaSynthesis` leaves
the received per-persona comments, the page error state, the view mode and
hence the rendered comment list unchanged — the failure is not surfaced as a
page error and the individual view stays as it was. -/
theorem synthesis_failure_preserves_individual_view (s : PageState)
    (e : String) :
    (triggerMetaSynthesis s (.error e)).comments = s.comments ∧
    (triggerMetaSynthesis s (.error e)).error = s.error ∧
    (triggerMetaSynthesis s (.error e)).viewMode = s.viewMode ∧
    (triggerMetaSynthesis s (.error e)).metaComments = s.metaComments ∧
    visibleComments (triggerMetaSynthesis s (.error e)) = visibleComments s := by
  exact ⟨rfl, rfl, rfl, rfl, rfl⟩

end VOS
